import Mathlib

/-!
Verification of the tenhou.net/6 log conversion in `convlog/src/tenhou.rs`.

The Rust module decodes a positionally-encoded JSON log into a typed model.
We embed the wire schema (`RawLog`, its `Kyoku` round records and the untagged
`ResultItem` enum), the domain model (`Log`, `Kyoku`, `EndStatus`,
`HoraDetail`), and the transforms (`From<RawLog> for Log`, `filter_kyokus`,
`split_by_kyoku`, `From<RawPartialLog> for RawLog`) as Lean functions.

Modelling conventions:
- Rust `u8` values are `Nat`; where the source performs `u8` arithmetic or an
  `as u8` cast, the wrap / truncation is written explicitly as `% 256`
  (release-build wrapping semantics).
- Rust `i32` values are `Int`; the score-delta arrays `[i32; 4]` are 4-tuples.
- A Rust panic (the `Vec` index `who_target_tuple[0]` / `[1]` can go out of
  bounds) is modelled by `Option`: `none` means the conversion aborts.
- `serde_json::Value` is the inductive `Json`; shapes the result decoder never
  distinguishes (null, bool, float, object) are collapsed into `Json.other`.
- `f64` pass-through values (the `rate` field) are carried as their 64-bit
  patterns (`Nat`); they are only stored and copied, never computed with.
-/

namespace Tenhou

/-- Opaque tile atom (`Pai`), equality-comparable, round-trips a numeric code. -/
structure Pai where
  code : Nat
deriving DecidableEq, Repr

/-- `[i32; 4]` score-delta / scoreboard array. -/
abbrev Deltas := Int × Int × Int × Int

/-- Round metadata triple `[kyoku_num, honba, kyotaku]` (all `u8`). -/
structure Meta where
  kyoku_num : Nat
  honba : Nat
  kyotaku : Nat
deriving DecidableEq, Repr

/-- An element of the `取` / `出` lists: tile, tsumogiri sentinel, or naki string. -/
inductive ActionItem where
  | pai : Pai → ActionItem
  | tsumogiri : Nat → ActionItem
  | naki : String → ActionItem
deriving DecidableEq, Repr

/-- `serde_json::Value`, restricted to the shapes the result decoder inspects.
`other` stands for null, bool, float and object, which every relevant decode
step rejects uniformly. -/
inductive Json where
  | str : String → Json
  | int : Int → Json
  | arr : List Json → Json
  | other : Json

/-- The untagged `ResultItem` enum of the wire schema: a status string, a
4-element `i32` array, or an arbitrary JSON array of winner info. -/
inductive ResultItem where
  | status : String → ResultItem
  | scoreDeltas : Deltas → ResultItem
  | horaDetail : List Json → ResultItem

/-- Wire-schema round record (`json_scheme::Kyoku`): meta, scoreboard,
indicator lists, the four per-seat `(haipai, takes, discards)` flat fields,
and the results tail. -/
structure RawKyoku where
  meta : Meta
  scoreboard : Deltas
  dora_indicators : List Pai
  ura_indicators : List Pai
  haipai_0 : List Pai
  takes_0 : List ActionItem
  discards_0 : List ActionItem
  haipai_1 : List Pai
  takes_1 : List ActionItem
  discards_1 : List ActionItem
  haipai_2 : List Pai
  takes_2 : List ActionItem
  discards_2 : List ActionItem
  haipai_3 : List Pai
  takes_3 : List ActionItem
  discards_3 : List ActionItem
  results : List ResultItem

/-- Rule sub-object: display string and the four `u8` red-tile counters. -/
structure Rule where
  disp : String
  aka : Nat
  aka51 : Nat
  aka52 : Nat
  aka53 : Nat
deriving DecidableEq, Repr

/-- Wire-schema top level (`json_scheme::Log`): round list, names, rule, and
the optional pass-through fields preserved verbatim. -/
structure RawLog where
  logs : List RawKyoku
  names : List String
  rule : Rule
  ratingc : Option String
  lobby : Option Int
  dan : Option (List String)
  rate : Option (List Nat)
  sx : Option (List String)

/-- Domain `HoraDetail`: winner seat, target seat (both `u8`), score deltas. -/
structure HoraDetail where
  who : Nat
  target : Nat
  score_deltas : Deltas
deriving DecidableEq, Repr

/-- Domain `EndStatus`: a win with per-winner details, or a draw with deltas. -/
inductive EndStatus where
  | hora : List HoraDetail → EndStatus
  | ryukyoku : Deltas → EndStatus
deriving DecidableEq, Repr

/-- Domain `ActionTable`: one seat's haipai, takes and discards. -/
structure ActionTable where
  haipai : List Pai
  takes : List ActionItem
  discards : List ActionItem
deriving DecidableEq, Repr

/-- Domain `Kyoku`. -/
structure Kyoku where
  meta : Meta
  scoreboard : Deltas
  dora_indicators : List Pai
  ura_indicators : List Pai
  action_tables : List ActionTable
  end_status : EndStatus
deriving DecidableEq, Repr

/-- `GameLength`: hanchan or tonpuu, nothing else. -/
inductive GameLength where
  | hanchan : GameLength
  | tonpuu : GameLength
deriving DecidableEq, Repr

/-- Domain `Log`. -/
structure Log where
  names : List String
  game_length : GameLength
  has_aka : Bool
  kyokus : List Kyoku
deriving DecidableEq, Repr

/-- The win-status marker string compared against `results[0]`. -/
def horaStatus : String := "和了"

/-- `serde_json::Value::as_u64`: `some` exactly on non-negative integers. -/
def asU64 : Json → Option Nat
  | Json.int n => if 0 ≤ n then some n.toNat else none
  | _ => none

/-- Rust `slice::chunks_exact(2)`: consecutive pairs, trailing leftover dropped. -/
def chunksExact2 {α : Type} : List α → List (α × α)
  | a :: b :: rest => (a, b) :: chunksExact2 rest
  | _ => []

/-- The `filter_map` body of the hora branch, run over the chunked pairs.
A pair that is not `(ScoreDeltas, HoraDetail)` is skipped.  For a matching
pair the source indexes `who_target_tuple[0]` and `[1]` on the `Vec<Value>`,
which panics when the array has fewer than two elements: `none` models that
abort.  `as_u64().unwrap_or(0) as u8` is `(asU64 _).getD 0 % 256`. -/
def collectHora : List (ResultItem × ResultItem) → Option (List HoraDetail)
  | [] => some []
  | (ResultItem.scoreDeltas sd, ResultItem.horaDetail wt) :: rest =>
    match wt.get? 0, wt.get? 1 with
    | some w0, some w1 =>
      (collectHora rest).map (fun tl =>
        { who := (asU64 w0).getD 0 % 256
          target := (asU64 w1).getD 0 % 256
          score_deltas := sd } :: tl)
    | _, _ => none
  | _ :: rest => collectHora rest

/-- The result decoder of `From<RawLog> for Log` (lines 286–328): start from
the default `Ryukyoku [0;4]`; if `results[0]` is a status string, dispatch on
the win marker. -/
def decodeResults (results : List ResultItem) : Option EndStatus :=
  match results.get? 0 with
  | some (ResultItem.status s) =>
    if s = horaStatus then
      (collectHora (chunksExact2 results.tail)).map EndStatus.hora
    else
      some (EndStatus.ryukyoku
        (match results.get? 1 with
         | some (ResultItem.scoreDeltas d) => d
         | _ => (0, 0, 0, 0)))
  | _ => some (EndStatus.ryukyoku (0, 0, 0, 0))

/-- Per-round body of `From<RawLog> for Log`: copy meta, scoreboard and
indicator lists, group the per-seat flat fields into the four ActionTables in
seat order, and attach the decoded end status. -/
def convertKyoku (k : RawKyoku) : Option Kyoku :=
  (decodeResults k.results).map (fun es =>
    { meta := k.meta
      scoreboard := k.scoreboard
      dora_indicators := k.dora_indicators
      ura_indicators := k.ura_indicators
      action_tables :=
        [{ haipai := k.haipai_0, takes := k.takes_0, discards := k.discards_0 },
         { haipai := k.haipai_1, takes := k.takes_1, discards := k.discards_1 },
         { haipai := k.haipai_2, takes := k.takes_2, discards := k.discards_2 },
         { haipai := k.haipai_3, takes := k.takes_3, discards := k.discards_3 }]
      end_status := es })

/-- Fallible map over a list: `none` as soon as one element fails.  Models
both a panicking iterator `collect` and serde decoding of a `Vec`. -/
def mapOptionAll {α β : Type} (f : α → Option β) : List α → Option (List β)
  | [] => some []
  | a :: rest =>
    match f a, mapOptionAll f rest with
    | some b, some bs => some (b :: bs)
    | _, _ => none

/-- Rust `str::contains(char)`: some character of the string equals `c`. -/
def strContainsChar (s : String) (c : Char) : Bool :=
  s.data.any (fun a => a == c)

/-- Wrapping `u8` addition: `a + b` on `u8` wraps modulo 256. -/
def add8 (a b : Nat) : Nat := (a + b) % 256

/-- `From<RawLog> for Log`: derive `game_length` from the rule display string,
`has_aka` from the `u8` sum of the four red-tile counters, and convert each
round. -/
def logOfRaw (r : RawLog) : Option Log :=
  (mapOptionAll convertKyoku r.logs).map (fun ks =>
    { names := r.names
      game_length :=
        if strContainsChar r.rule.disp '東' then GameLength.tonpuu
        else GameLength.hanchan
      has_aka :=
        decide (0 < add8 (add8 (add8 r.rule.aka r.rule.aka51) r.rule.aka52) r.rule.aka53)
      kyokus := ks })

/-- `RawLog::filter_kyokus`: retain the rounds passing the external predicate
`kyoku_filter.test(kyoku_num, honba)`. -/
def RawLog.filter_kyokus (r : RawLog) (p : Nat → Nat → Bool) : RawLog :=
  { r with logs := r.logs.filter (fun k => p k.meta.kyoku_num k.meta.honba) }

/-- `Log::filter_kyokus`: same, on the domain model. -/
def Log.filter_kyokus (l : Log) (p : Nat → Nat → Bool) : Log :=
  { l with kyokus := l.kyokus.filter (fun k => p k.meta.kyoku_num k.meta.honba) }

/-- `RawPartialLog`: a view referencing the parent log plus a round subset. -/
structure RawPartialLog where
  parent : RawLog
  logs : List RawKyoku

/-- Rust `slice::chunks(1)`: one singleton chunk per element. -/
def chunksOfOne {α : Type} : List α → List (List α)
  | [] => []
  | a :: rest => [a] :: chunksOfOne rest

/-- `RawLog::split_by_kyoku`: one `RawPartialLog` per `chunks(1)` chunk. -/
def RawLog.split_by_kyoku (r : RawLog) : List RawPartialLog :=
  (chunksOfOne r.logs).map (fun c => { parent := r, logs := c })

/-- `From<RawPartialLog> for RawLog`: clone the parent, substitute the subset. -/
def RawLog.ofPartial (p : RawPartialLog) : RawLog :=
  { p.parent with logs := p.logs }

/-- serde decode of one `i32` (an integer in `i32` range). -/
def decodeI32 : Json → Option Int
  | Json.int n => if -(2 ^ 31) ≤ n ∧ n < 2 ^ 31 then some n else none
  | _ => none

/-- serde decode of `[i32; 4]`: exactly four in-range integers. -/
def decodeDeltas : List Json → Option Deltas
  | [a, b, c, d] =>
    match decodeI32 a, decodeI32 b, decodeI32 c, decodeI32 d with
    | some x, some y, some z, some w => some (x, y, z, w)
    | _, _, _, _ => none
  | _ => none

/-- serde decode of the untagged `ResultItem`, trying variants in declaration
order: `Status(String)`, then `ScoreDeltas([i32; 4])`, then
`HoraDetail(Vec<Value>)`.  Any other JSON shape fails (FormatError). -/
def decodeResultItem : Json → Option ResultItem
  | Json.str s => some (ResultItem.status s)
  | Json.arr l =>
    match decodeDeltas l with
    | some d => some (ResultItem.scoreDeltas d)
    | none => some (ResultItem.horaDetail l)
  | _ => none

/-- serde decode of the whole `Vec<ResultItem>` results tail. -/
def decodeResultsJson (l : List Json) : Option (List ResultItem) :=
  mapOptionAll decodeResultItem l

/-- A sample wire round record with empty action lists and an empty results
tail, used to instantiate universally quantified theorems. -/
def exKyoku : RawKyoku :=
  { meta := ⟨1, 0, 0⟩
    scoreboard := (25000, 25000, 25000, 25000)
    dora_indicators := []
    ura_indicators := []
    haipai_0 := [], takes_0 := [], discards_0 := []
    haipai_1 := [], takes_1 := [], discards_1 := []
    haipai_2 := [], takes_2 := [], discards_2 := []
    haipai_3 := [], takes_3 := [], discards_3 := []
    results := [] }

/-- The domain round `exKyoku` converts to. -/
def exDomainKyoku : Kyoku :=
  { meta := ⟨1, 0, 0⟩
    scoreboard := (25000, 25000, 25000, 25000)
    dora_indicators := []
    ura_indicators := []
    action_tables :=
      [{ haipai := [], takes := [], discards := [] },
       { haipai := [], takes := [], discards := [] },
       { haipai := [], takes := [], discards := [] },
       { haipai := [], takes := [], discards := [] }]
    end_status := EndStatus.ryukyoku (0, 0, 0, 0) }

/-- A sample wire log holding the single round `exKyoku`. -/
def exRawLog : RawLog :=
  { logs := [exKyoku]
    names := ["a", "b", "c", "d"]
    rule := { disp := "東1局", aka := 1, aka51 := 0, aka52 := 0, aka53 := 0 }
    ratingc := none
    lobby := none
    dan := none
    rate := none
    sx := none }

/-- C3: the spec claims the win branch never fails for any shapes of the
remaining result elements, even when a pair's winner-info array has fewer
than two elements.  The code indexes `who_target_tuple[0]` / `[1]` on the
`Vec<Value>`, which panics out of bounds: on the results tail
`["和了", [1,2,3,4], []]` the conversion aborts and produces no Kyoku. -/
theorem c3_short_winner_info_aborts :
    convertKyoku { exKyoku with
      results := [ResultItem.status "和了", ResultItem.scoreDeltas (1, 2, 3, 4),
                  ResultItem.horaDetail []] } = none := rfl

/-- C4: for a results tail starting with a status string other than the win
marker, the produced end status is `Ryukyoku` whose deltas are element 1 when
that element is a 4-element score-delta array, and `[0,0,0,0]` when element 1
is absent or of any other shape. -/
theorem c4_ryukyoku_deltas (s : String) (rest : List ResultItem)
    (hs : s ≠ horaStatus) :
    (∃ d, rest.get? 0 = some (ResultItem.scoreDeltas d) ∧
      decodeResults (ResultItem.status s :: rest) = some (EndStatus.ryukyoku d))
    ∨ ((∀ d, rest.get? 0 ≠ some (ResultItem.scoreDeltas d)) ∧
      decodeResults (ResultItem.status s :: rest)
        = some (EndStatus.ryukyoku (0, 0, 0, 0))) := by
  cases h : rest[0]? with
  | none =>
    right
    constructor
    · intro d hd
      rw [List.get?_eq_getElem?, h] at hd
      cases hd
    · simp [decodeResults, hs, h]
  | some item =>
    cases item with
    | scoreDeltas d =>
      left
      exact ⟨d, by simp [List.get?_eq_getElem?, h], by simp [decodeResults, hs, h]⟩
    | status t =>
      right
      constructor
      · intro d hd
        rw [List.get?_eq_getElem?, h] at hd
        cases hd
      · simp [decodeResults, hs, h]
    | horaDetail l =>
      right
      constructor
      · intro d hd
        rw [List.get?_eq_getElem?, h] at hd
        cases hd
      · simp [decodeResults, hs, h]

/-- C4 witness: the spec example `results = ["流局"]` yields
`Ryukyoku{score_deltas:[0,0,0,0]}`. -/
theorem c4_ryukyoku_deltas_witness :
    (∃ d, ([] : List ResultItem).get? 0 = some (ResultItem.scoreDeltas d) ∧
      decodeResults [ResultItem.status "流局"] = some (EndStatus.ryukyoku d))
    ∨ ((∀ d, ([] : List ResultItem).get? 0 ≠ some (ResultItem.scoreDeltas d)) ∧
      decodeResults [ResultItem.status "流局"]
        = some (EndStatus.ryukyoku (0, 0, 0, 0))) :=
  c4_ryukyoku_deltas "流局" [] (by decide)

/-- C9: whenever the transform produces a domain round, its metadata,
scoreboard and indicator lists are the raw record's, and the four
action tables are exactly the `(haipai_i, takes_i, discards_i)` triples in
seat order, so seat order, the 13 haipai tiles and the takes/discards
lists are preserved verbatim. -/
theorem c9_fields_copied (k : RawKyoku) (ky : Kyoku)
    (h : convertKyoku k = some ky) :
    ky.meta = k.meta ∧ ky.scoreboard = k.scoreboard
    ∧ ky.dora_indicators = k.dora_indicators
    ∧ ky.ura_indicators = k.ura_indicators
    ∧ ky.action_tables =
      [{ haipai := k.haipai_0, takes := k.takes_0, discards := k.discards_0 },
       { haipai := k.haipai_1, takes := k.takes_1, discards := k.discards_1 },
       { haipai := k.haipai_2, takes := k.takes_2, discards := k.discards_2 },
       { haipai := k.haipai_3, takes := k.takes_3, discards := k.discards_3 }] := by
  unfold convertKyoku at h
  rcases Option.map_eq_some'.mp h with ⟨es, _, hky⟩
  subst hky
  exact ⟨rfl, rfl, rfl, rfl, rfl⟩

/-- C9 witness: the sample round converts successfully and its fields are the
copied triples. -/
theorem c9_fields_copied_witness :
    convertKyoku exKyoku = some exDomainKyoku
    ∧ (exDomainKyoku.meta = exKyoku.meta
      ∧ exDomainKyoku.scoreboard = exKyoku.scoreboard
      ∧ exDomainKyoku.dora_indicators = exKyoku.dora_indicators
      ∧ exDomainKyoku.ura_indicators = exKyoku.ura_indicators
      ∧ exDomainKyoku.action_tables =
        [{ haipai := exKyoku.haipai_0, takes := exKyoku.takes_0, discards := exKyoku.discards_0 },
         { haipai := exKyoku.haipai_1, takes := exKyoku.takes_1, discards := exKyoku.discards_1 },
         { haipai := exKyoku.haipai_2, takes := exKyoku.takes_2, discards := exKyoku.discards_2 },
         { haipai := exKyoku.haipai_3, takes := exKyoku.takes_3, discards := exKyoku.discards_3 }]) :=
  ⟨rfl, c9_fields_copied exKyoku exDomainKyoku rfl⟩

/-- C10: in win decoding, for a pair whose winner-info array has at least two
elements, a first (resp. second) element that is not a non-negative JSON
integer makes `who` (resp. `target`) silently 0, and a non-negative integer
above 255 is stored truncated modulo 256; in both cases a win detail is
produced without error. -/
theorem c10_who_target_leniency (sd : Deltas) (wt : List Json) (v0 v1 : Json)
    (h0 : wt.get? 0 = some v0) (h1 : wt.get? 1 = some v1) :
    ∃ d, decodeResults
        [ResultItem.status horaStatus, ResultItem.scoreDeltas sd,
         ResultItem.horaDetail wt] = some (EndStatus.hora [d])
      ∧ d.score_deltas = sd
      ∧ (asU64 v0 = none → d.who = 0)
      ∧ (asU64 v1 = none → d.target = 0)
      ∧ (∀ n, asU64 v0 = some n → 255 < n → d.who = n % 256)
      ∧ (∀ n, asU64 v1 = some n → 255 < n → d.target = n % 256) := by
  rw [List.get?_eq_getElem?] at h0 h1
  refine ⟨{ who := (asU64 v0).getD 0 % 256, target := (asU64 v1).getD 0 % 256,
            score_deltas := sd }, ?_, rfl, ?_, ?_, ?_, ?_⟩
  · simp [decodeResults, chunksExact2, collectHora, h0, h1]
  · intro h; simp [h]
  · intro h; simp [h]
  · intro n h _; simp [h]
  · intro n h _; simp [h]

/-- C10 witness: info `["x", 300]` gives `who = 0` (non-integer) and
`target = 300 % 256 = 44` (truncation), with a win detail produced. -/
theorem c10_who_target_leniency_witness :
    ∃ d, decodeResults
        [ResultItem.status horaStatus, ResultItem.scoreDeltas (1, 2, 3, -6),
         ResultItem.horaDetail [Json.str "x", Json.int 300]]
        = some (EndStatus.hora [d])
      ∧ d.score_deltas = (1, 2, 3, -6)
      ∧ (asU64 (Json.str "x") = none → d.who = 0)
      ∧ (asU64 (Json.int 300) = none → d.target = 0)
      ∧ (∀ n, asU64 (Json.str "x") = some n → 255 < n → d.who = n % 256)
      ∧ (∀ n, asU64 (Json.int 300) = some n → 255 < n → d.target = n % 256) :=
  c10_who_target_leniency (1, 2, 3, -6) [Json.str "x", Json.int 300]
    (Json.str "x") (Json.int 300) rfl rfl

/-- C5 counterexample: the claim says any combination with at least one
nonzero red-tile counter yields `has_aka = true`, but the source adds the
four `u8` counters with wrapping `u8` arithmetic: for `aka = 255, aka51 = 1`
the sum wraps to 0 and `has_aka` is `false` although `255 + 1 + 0 + 0 > 0`. -/
theorem c5_has_aka_counterexample :
    (logOfRaw
      { logs := []
        names := []
        rule := { disp := "", aka := 255, aka51 := 1, aka52 := 0, aka53 := 0 }
        ratingc := none
        lobby := none
        dan := none
        rate := none
        sx := none }).map Log.has_aka = some false
    ∧ 0 < 255 + 1 + 0 + 0 := ⟨rfl, by decide⟩

/-- C5 (amended): `has_aka` is true iff the wrapping `u8` sum of the four
red-tile counters, i.e. the sum modulo 256, is greater than zero. -/
theorem c5_has_aka_mod256 (r : RawLog) (l : Log) (h : logOfRaw r = some l) :
    l.has_aka = true
      ↔ 0 < (r.rule.aka + r.rule.aka51 + r.rule.aka52 + r.rule.aka53) % 256 := by
  unfold logOfRaw at h
  rcases Option.map_eq_some'.mp h with ⟨ks, _, hl⟩
  subst hl
  simp only [decide_eq_true_eq, add8]
  omega

/-- C5 witness: the spec example `aka = 0, aka51 = 1, aka52 = 0, aka53 = 0`
gives `has_aka = true`, matching the nonzero wrapped sum. -/
theorem c5_has_aka_mod256_witness :
    (Log.mk [] GameLength.hanchan true []).has_aka = true
      ↔ 0 < (0 + 1 + 0 + 0) % 256 :=
  c5_has_aka_mod256
    { logs := []
      names := []
      rule := { disp := "", aka := 0, aka51 := 1, aka52 := 0, aka53 := 0 }
      ratingc := none
      lobby := none
      dan := none
      rate := none
      sx := none }
    (Log.mk [] GameLength.hanchan true []) rfl

/-- C6: the derived game length is Tonpuu exactly when the rule's display
string contains the glyph '東', and Hanchan in every other case. -/
theorem c6_game_length (r : RawLog) (l : Log) (h : logOfRaw r = some l) :
    (l.game_length = GameLength.tonpuu ↔ strContainsChar r.rule.disp '東' = true)
    ∧ (l.game_length = GameLength.hanchan
        ↔ strContainsChar r.rule.disp '東' = false) := by
  unfold logOfRaw at h
  rcases Option.map_eq_some'.mp h with ⟨ks, _, hl⟩
  subst hl
  cases hb : strContainsChar r.rule.disp '東' <;> simp [hb]

/-- C6 witness: the spec example `disp = "東1局"` classifies as Tonpuu. -/
theorem c6_game_length_witness :
    ((Log.mk ["a", "b", "c", "d"] GameLength.tonpuu true [exDomainKyoku]).game_length
        = GameLength.tonpuu
      ↔ strContainsChar exRawLog.rule.disp '東' = true)
    ∧ ((Log.mk ["a", "b", "c", "d"] GameLength.tonpuu true [exDomainKyoku]).game_length
        = GameLength.hanchan
      ↔ strContainsChar exRawLog.rule.disp '東' = false) :=
  c6_game_length exRawLog
    (Log.mk ["a", "b", "c", "d"] GameLength.tonpuu true [exDomainKyoku]) rfl

/-- C2 counterexample: the claim says a non-string element 0 of the results
tail is a FormatError and no Kyoku is produced, but the array
`[1,2,3,4]` in position 0 decodes as the `ScoreDeltas` variant of the
untagged `ResultItem`, and the transform then produces a Kyoku with the
default all-zero `Ryukyoku` end status. -/
theorem c2_nonstring_head_counterexample :
    decodeResultItem (Json.arr [Json.int 1, Json.int 2, Json.int 3, Json.int 4])
      = some (ResultItem.scoreDeltas (1, 2, 3, 4))
    ∧ convertKyoku { exKyoku with results := [ResultItem.scoreDeltas (1, 2, 3, 4)] }
      = some { exDomainKyoku with end_status := EndStatus.ryukyoku (0, 0, 0, 0) } :=
  ⟨rfl, rfl⟩

/-- C2 (amended): a non-string element 0 of the results tail is dispatched by
shape.  When it is not an array either (a bare number, or null/bool/float/
object), it matches no `ResultItem` variant and the whole results tail fails
to deserialize — the FormatError of the claim.  When it is a JSON array, it
decodes as a non-status `ResultItem`, and whenever the rest of the tail
decodes the round still becomes a Kyoku, with the default all-zero
`Ryukyoku` end status rather than an error. -/
theorem c2_nonstring_head (l : List Json) (j : Json) (h0 : l.get? 0 = some j)
    (hs : ∀ s, j ≠ Json.str s) :
    ((∀ inner, j ≠ Json.arr inner) → decodeResultsJson l = none)
    ∧ (∀ inner, j = Json.arr inner →
        (∃ item, decodeResultItem j = some item
          ∧ ∀ s, item ≠ ResultItem.status s)
        ∧ ∀ items, decodeResultsJson l = some items →
            decodeResults items = some (EndStatus.ryukyoku (0, 0, 0, 0))) := by
  cases l with
  | nil => cases h0
  | cons a t =>
    have ha : a = j := by
      rw [List.get?_eq_getElem?] at h0
      simpa using h0
    subst ha
    cases a with
    | str s => exact absurd rfl (hs s)
    | int n =>
      refine ⟨fun _ => ?_, fun inner heq => nomatch heq⟩
      simp [decodeResultsJson, mapOptionAll, decodeResultItem]
    | other =>
      refine ⟨fun _ => ?_, fun inner heq => nomatch heq⟩
      simp [decodeResultsJson, mapOptionAll, decodeResultItem]
    | arr inner =>
      obtain ⟨item, hitemEq, hnonstatus⟩ :
          ∃ item, decodeResultItem (Json.arr inner) = some item
            ∧ ∀ s, item ≠ ResultItem.status s := by
        cases hd : decodeDeltas inner with
        | some d =>
          exact ⟨ResultItem.scoreDeltas d, by simp [decodeResultItem, hd],
            fun _ h => nomatch h⟩
        | none =>
          exact ⟨ResultItem.horaDetail inner, by simp [decodeResultItem, hd],
            fun _ h => nomatch h⟩
      refine ⟨fun hno => absurd rfl (hno inner),
              fun inner' _ => ⟨⟨item, hitemEq, hnonstatus⟩, ?_⟩⟩
      intro items hitems
      cases hrest : mapOptionAll decodeResultItem t with
      | none =>
        rw [show decodeResultsJson (Json.arr inner :: t) = none by
          simp [decodeResultsJson, mapOptionAll, hitemEq, hrest]] at hitems
        cases hitems
      | some rest =>
        rw [show decodeResultsJson (Json.arr inner :: t) = some (item :: rest) by
          simp [decodeResultsJson, mapOptionAll, hitemEq, hrest]] at hitems
        injection hitems with hitems
        subst hitems
        cases item with
        | status s => exact absurd rfl (hnonstatus s)
        | scoreDeltas d => rfl
        | horaDetail w => rfl

/-- C2 witness: at the concrete tail `[[1,2,3,4]]` (an array head) the
array branch of the amended claim is exercised: the head decodes as a
non-status item and the decoded tail yields the default Ryukyoku. -/
theorem c2_nonstring_head_witness :
    ((∀ inner, Json.arr [Json.int 1, Json.int 2, Json.int 3, Json.int 4]
        ≠ Json.arr inner) →
      decodeResultsJson [Json.arr [Json.int 1, Json.int 2, Json.int 3, Json.int 4]]
        = none)
    ∧ (∀ inner,
        Json.arr [Json.int 1, Json.int 2, Json.int 3, Json.int 4] = Json.arr inner →
        (∃ item,
          decodeResultItem (Json.arr [Json.int 1, Json.int 2, Json.int 3, Json.int 4])
            = some item
          ∧ ∀ s, item ≠ ResultItem.status s)
        ∧ ∀ items,
            decodeResultsJson [Json.arr [Json.int 1, Json.int 2, Json.int 3, Json.int 4]]
              = some items →
            decodeResults items = some (EndStatus.ryukyoku (0, 0, 0, 0))) :=
  c2_nonstring_head [Json.arr [Json.int 1, Json.int 2, Json.int 3, Json.int 4]]
    (Json.arr [Json.int 1, Json.int 2, Json.int 3, Json.int 4]) rfl
    (fun _ h => nomatch h)

/-- Filtering an already-filtered list by the same predicate changes nothing. -/
theorem filter_idem {α : Type} (q : α → Bool) (xs : List α) :
    (xs.filter q).filter q = xs.filter q :=
  List.filter_eq_self.mpr (fun _ ha => (List.mem_filter.mp ha).2)

/-- C7: `filter_kyokus` (on both the raw and the domain log) retains exactly
the rounds passing `predicate(round_number, honba)`, keeps them in original
order and untouched (the retained list is a sublist of the original and has
one element per passing round), leaves the other fields alone, and is
idempotent under re-application of the same predicate. -/
theorem c7_filter_kyokus (r : RawLog) (l : Log) (p : Nat → Nat → Bool) :
    ((r.filter_kyokus p).logs.Sublist r.logs
      ∧ (∀ k ∈ (r.filter_kyokus p).logs, p k.meta.kyoku_num k.meta.honba = true)
      ∧ (∀ k ∈ r.logs, p k.meta.kyoku_num k.meta.honba = true →
          k ∈ (r.filter_kyokus p).logs)
      ∧ (r.filter_kyokus p).logs.length
          = r.logs.countP (fun k => p k.meta.kyoku_num k.meta.honba)
      ∧ (r.filter_kyokus p).names = r.names
      ∧ (r.filter_kyokus p).rule = r.rule
      ∧ (r.filter_kyokus p).filter_kyokus p = r.filter_kyokus p)
    ∧ ((l.filter_kyokus p).kyokus.Sublist l.kyokus
      ∧ (∀ k ∈ (l.filter_kyokus p).kyokus, p k.meta.kyoku_num k.meta.honba = true)
      ∧ (∀ k ∈ l.kyokus, p k.meta.kyoku_num k.meta.honba = true →
          k ∈ (l.filter_kyokus p).kyokus)
      ∧ (l.filter_kyokus p).kyokus.length
          = l.kyokus.countP (fun k => p k.meta.kyoku_num k.meta.honba)
      ∧ (l.filter_kyokus p).names = l.names
      ∧ (l.filter_kyokus p).filter_kyokus p = l.filter_kyokus p) := by
  refine ⟨⟨List.filter_sublist _, ?_, ?_, ?_, rfl, rfl, ?_⟩,
          ⟨List.filter_sublist _, ?_, ?_, ?_, rfl, ?_⟩⟩
  · exact fun k hk => (List.mem_filter.mp hk).2
  · exact fun k hk hp => List.mem_filter.mpr ⟨hk, hp⟩
  · exact (List.countP_eq_length_filter _ _).symm
  · show RawLog.filter_kyokus _ _ = _
    unfold RawLog.filter_kyokus
    simp [filter_idem]
  · exact fun k hk => (List.mem_filter.mp hk).2
  · exact fun k hk hp => List.mem_filter.mpr ⟨hk, hp⟩
  · exact (List.countP_eq_length_filter _ _).symm
  · show Log.filter_kyokus _ _ = _
    unfold Log.filter_kyokus
    simp [filter_idem]

/-- C7 witness: on a one-round log whose round passes the predicate
`(n, _) ↦ n == 1`, the retained round is a member of the filtered raw log. -/
theorem c7_filter_kyokus_witness :
    exKyoku ∈ (exRawLog.filter_kyokus (fun n _ => n == 1)).logs :=
  ((c7_filter_kyokus exRawLog (Log.mk [] GameLength.hanchan false [])
      (fun n _ => n == 1)).1.2.2.1) exKyoku (by
    show exKyoku ∈ [exKyoku]
    exact List.mem_singleton.mpr rfl) (by decide)

/-- `chunks(1)` is one singleton list per element. -/
theorem chunksOfOne_eq_map {α : Type} (l : List α) :
    chunksOfOne l = l.map (fun x => [x]) := by
  induction l with
  | nil => rfl
  | cons a t ih => simp [chunksOfOne, ih]

/-- C8: `split_by_kyoku` on an N-round raw log yields exactly N views, the
i-th referencing the parent and exactly the i-th round; converting a view
back into a standalone `RawLog` keeps the parent's names, rule and
pass-through fields and replaces the round list by that single round. -/
theorem c8_split_by_kyoku (r : RawLog) :
    (r.split_by_kyoku).length = r.logs.length
    ∧ (∀ i k, r.logs.get? i = some k →
        (r.split_by_kyoku).get? i = some { parent := r, logs := [k] })
    ∧ (∀ v ∈ r.split_by_kyoku,
        v.parent = r
        ∧ (∃ k ∈ r.logs, v.logs = [k])
        ∧ (RawLog.ofPartial v).names = r.names
        ∧ (RawLog.ofPartial v).rule = r.rule
        ∧ (RawLog.ofPartial v).ratingc = r.ratingc
        ∧ (RawLog.ofPartial v).lobby = r.lobby
        ∧ (RawLog.ofPartial v).dan = r.dan
        ∧ (RawLog.ofPartial v).rate = r.rate
        ∧ (RawLog.ofPartial v).sx = r.sx
        ∧ (RawLog.ofPartial v).logs = v.logs) := by
  have hsplit : r.split_by_kyoku = r.logs.map (fun k => { parent := r, logs := [k] }) := by
    unfold RawLog.split_by_kyoku
    rw [chunksOfOne_eq_map, List.map_map]
    rfl
  refine ⟨by rw [hsplit, List.length_map], ?_, ?_⟩
  · intro i k hk
    rw [List.get?_eq_getElem?] at hk ⊢
    rw [hsplit, List.getElem?_map, hk]
    rfl
  · intro v hv
    rw [hsplit] at hv
    rcases List.mem_map.mp hv with ⟨k, hk, hvk⟩
    subst hvk
    exact ⟨rfl, ⟨k, hk, rfl⟩, rfl, rfl, rfl, rfl, rfl, rfl, rfl, rfl⟩

/-- C8 witness: on the one-round sample log, the single view holds the round
and reconstructs to the parent's shared fields. -/
theorem c8_split_by_kyoku_witness :
    (exRawLog.split_by_kyoku).get? 0 = some { parent := exRawLog, logs := [exKyoku] }
    ∧ (RawLog.ofPartial { parent := exRawLog, logs := [exKyoku] }).names
        = exRawLog.names :=
  ⟨(c8_split_by_kyoku exRawLog).2.1 0 exKyoku rfl,
   (((c8_split_by_kyoku exRawLog).2.2 { parent := exRawLog, logs := [exKyoku] }
      (by
        rw [show exRawLog.split_by_kyoku
              = [{ parent := exRawLog, logs := [exKyoku] }] from rfl]
        exact List.mem_singleton.mpr rfl)).2.2.1)⟩

/-- Results tail consisting of consecutive `(deltas, info)` pairs. -/
def flattenPairs : List (Deltas × List Json) → List ResultItem
  | [] => []
  | (d, w) :: rest =>
    ResultItem.scoreDeltas d :: ResultItem.horaDetail w :: flattenPairs rest

/-- The win detail the source produces for one `(deltas, info)` pair. -/
def detailOfPair (d : Deltas) (w : List Json) : HoraDetail :=
  { who := ((w.get? 0).bind asU64).getD 0 % 256
    target := ((w.get? 1).bind asU64).getD 0 % 256
    score_deltas := d }

/-- Chunking a flattened pair list (plus at most one leftover element) into
exact pairs recovers the pairs and drops the leftover. -/
theorem chunksExact2_flattenPairs (ps : List (Deltas × List Json))
    (extra : List ResultItem) (hx : extra.length ≤ 1) :
    chunksExact2 (flattenPairs ps ++ extra)
      = ps.map (fun dw =>
          (ResultItem.scoreDeltas dw.1, ResultItem.horaDetail dw.2)) := by
  induction ps with
  | nil =>
    cases extra with
    | nil => rfl
    | cons e t =>
      cases t with
      | nil => rfl
      | cons e2 t2 => simp at hx
  | cons dw rest ih =>
    cases dw with
    | mk d w => simpa [flattenPairs, chunksExact2] using ih

/-- Collecting win details over well-formed pairs succeeds and yields one
detail per pair. -/
theorem collectHora_flattenPairs (ps : List (Deltas × List Json))
    (h : ∀ dw ∈ ps, (dw.2.get? 0).isSome ∧ (dw.2.get? 1).isSome) :
    collectHora (ps.map (fun dw =>
        (ResultItem.scoreDeltas dw.1, ResultItem.horaDetail dw.2)))
      = some (ps.map (fun dw => detailOfPair dw.1 dw.2)) := by
  induction ps with
  | nil => rfl
  | cons dw rest ih =>
    obtain ⟨h0, h1⟩ := h dw (List.mem_cons_self _ _)
    rcases Option.isSome_iff_exists.mp h0 with ⟨w0, hw0⟩
    rcases Option.isSome_iff_exists.mp h1 with ⟨w1, hw1⟩
    have ihh := ih (fun x hx => h x (List.mem_cons_of_mem _ hx))
    cases dw with
    | mk d w =>
      rw [List.get?_eq_getElem?] at hw0 hw1
      simp [collectHora, hw0, hw1, ihh, detailOfPair, List.get?_eq_getElem?]

/-- C1 (amended): for a results tail that is the win marker followed by
consecutive `(deltas, info)` pairs whose info arrays start with two
non-negative integers, plus at most one trailing unpaired element (dropped
without error), the transform produces `Hora` with exactly one detail per
pair in encounter order, carrying that pair's score deltas and
`who = info[0] mod 256`, `target = info[1] mod 256` (the `as u8` store
truncates). -/
theorem c1_hora_pairs (ps : List (Deltas × List Json)) (extra : List ResultItem)
    (hx : extra.length ≤ 1)
    (hinfo : ∀ dw ∈ ps, ∃ a b : Int, dw.2.get? 0 = some (Json.int a)
      ∧ dw.2.get? 1 = some (Json.int b) ∧ 0 ≤ a ∧ 0 ≤ b) :
    ∃ ds, decodeResults
        (ResultItem.status horaStatus :: (flattenPairs ps ++ extra))
        = some (EndStatus.hora ds)
      ∧ ds.length = ps.length
      ∧ (∀ i dw, ps.get? i = some dw →
          ∀ a b : Int, dw.2.get? 0 = some (Json.int a) →
            dw.2.get? 1 = some (Json.int b) → 0 ≤ a → 0 ≤ b →
            ds.get? i = some { who := a.toNat % 256, target := b.toNat % 256,
                               score_deltas := dw.1 }) := by
  refine ⟨ps.map (fun dw => detailOfPair dw.1 dw.2), ?_, by simp, ?_⟩
  · have hsome : ∀ dw ∈ ps, (dw.2.get? 0).isSome ∧ (dw.2.get? 1).isSome := by
      intro dw hdw
      obtain ⟨a, b, ha, hb, _, _⟩ := hinfo dw hdw
      rw [List.get?_eq_getElem?] at ha hb
      exact ⟨by simp [List.get?_eq_getElem?, ha], by simp [List.get?_eq_getElem?, hb]⟩
    have hchunk := chunksExact2_flattenPairs ps extra hx
    have hcollect := collectHora_flattenPairs ps hsome
    simp [decodeResults, hchunk, hcollect]
  · intro i dw hi a b ha hb hha hhb
    rw [List.get?_eq_getElem?] at hi ha hb ⊢
    rw [List.getElem?_map, hi]
    simp [detailOfPair, List.get?_eq_getElem?, ha, hb, asU64, hha, hhb]

/-- C1 counterexample: the claim states `who = info[0]` for any non-negative
integer, but the `as u8` cast truncates modulo 256: for the win pair with
info `[256, 0]` the produced detail has `who = 0`, not 256. -/
theorem c1_hora_pairs_counterexample :
    decodeResults
        [ResultItem.status "和了", ResultItem.scoreDeltas (0, 0, 0, 0),
         ResultItem.horaDetail [Json.int 256, Json.int 0]]
      = some (EndStatus.hora
          [{ who := 0, target := 0, score_deltas := (0, 0, 0, 0) }])
    ∧ (0 : Nat) ≠ 256 := ⟨rfl, by decide⟩

/-- C1 witness: the spec's double-ron example
`["和了", [500,0,-500,0], [2,0], [500,-500,0,0], [1,0]]` produces two details
in array order. -/
theorem c1_hora_pairs_witness :
    ∃ ds, decodeResults
        (ResultItem.status horaStatus
          :: (flattenPairs
                [((500, 0, -500, 0), [Json.int 2, Json.int 0]),
                 ((500, -500, 0, 0), [Json.int 1, Json.int 0])] ++ []))
        = some (EndStatus.hora ds)
      ∧ ds.length
          = [((500, 0, -500, 0), [Json.int 2, Json.int 0]),
             ((500, -500, 0, 0), [Json.int 1, Json.int 0])].length
      ∧ (∀ i dw,
          [((500, 0, -500, 0), [Json.int 2, Json.int 0]),
           ((500, -500, 0, 0), [Json.int 1, Json.int 0])].get? i = some dw →
          ∀ a b : Int, dw.2.get? 0 = some (Json.int a) →
            dw.2.get? 1 = some (Json.int b) → 0 ≤ a → 0 ≤ b →
            ds.get? i = some { who := a.toNat % 256, target := b.toNat % 256,
                               score_deltas := dw.1 }) :=
  c1_hora_pairs
    [(((500 : Int), (0 : Int), (-500 : Int), (0 : Int)), [Json.int 2, Json.int 0]),
     (((500 : Int), (-500 : Int), (0 : Int), (0 : Int)), [Json.int 1, Json.int 0])]
    [] (by decide)
    (by
      intro dw hdw
      rcases List.mem_cons.mp hdw with h | hdw2
      · subst h
        exact ⟨2, 0, rfl, rfl, by decide, by decide⟩
      · rcases List.mem_cons.mp hdw2 with h | hdw3
        · subst h
          exact ⟨1, 0, rfl, rfl, by decide, by decide⟩
        · cases hdw3)

end Tenhou
